import Mathlib

/-!
Verification of the Jira dashboard's data pipeline (`src/app.py`).

The dashboard builds a list of flat records (`rows`, lines 36-48), back-fills
each subtask's "Epic Link" from its parent task (lines 51-65), filters the
records by the sidebar selections (lines 95-110), and aggregates progress per
epic (lines 147-158).  We embed the records and these three pure
transformations in Lean and prove the spec's claims about them.

Modelling conventions:
* a row dictionary becomes the structure `IssueRecord`; fields keep the
  dictionary keys ("Key", "Summary", "Status", "Issue Type", "Parent",
  "Epic Link", "Created", "Oncelik");
* calendar days (`pd.to_datetime` of the truncated `created` string) are
  modelled as integers preserving their order, since only order comparisons
  are performed on them;
* the Python dicts are mutated in place by the resolution loop (line 63-65),
  but only "Sub-task" rows are written while `task_map` holds only rows that
  are neither "Sub-task" nor "Epic", and `task_map` is fully built before the
  loop runs; hence the loop is exactly the pure per-element map `resolve`
  below (each row's new value depends only on the original row list);
* `task_map` is a Python dict built by insertion, so a later row with the
  same key overwrites an earlier one; `findTask` reproduces this
  last-occurrence-wins lookup.
-/

/-- One normalized row of the dashboard's table (lines 39-48 of app.py). -/
structure IssueRecord where
  Key : String
  Summary : String
  Status : String
  IssueType : String
  Parent : String
  EpicLink : String
  Created : Int
  Oncelik : String
deriving DecidableEq, Repr

/-- Condition of line 56: the record is neither a "Sub-task" nor an "Epic";
such records populate `task_map`. -/
def taskLike (r : IssueRecord) : Bool :=
  r.IssueType != "Sub-task" && r.IssueType != "Epic"

/-- Lookup in `task_map` (lines 52-57): the last record of the list that is
`taskLike` and has the given key, reproducing dict-insertion overwrites. -/
def findTask : List IssueRecord → String → Option IssueRecord
  | [], _ => none
  | r :: rs, k =>
    match findTask rs k with
    | some p => some p
    | none => if taskLike r && r.Key == k then some r else none

/-- Effect of the resolution loop (lines 63-65) on a single row: a "Sub-task"
whose "Parent" is a key of `task_map` gets that task's "Epic Link"; every
other row is untouched. -/
def resolveRec (rows : List IssueRecord) (r : IssueRecord) : IssueRecord :=
  if r.IssueType == "Sub-task" then
    match findTask rows r.Parent with
    | some p => { r with EpicLink := p.EpicLink }
    | none => r
  else r

/-- The hierarchy-resolution pass (lines 51-65) as a pure function. -/
def resolve (rows : List IssueRecord) : List IssueRecord :=
  rows.map (resolveRec rows)

theorem findTask_sound : ∀ {rows : List IssueRecord} {k : String} {p : IssueRecord},
    findTask rows k = some p → p ∈ rows ∧ taskLike p = true ∧ p.Key = k := by
  intro rows
  induction rows with
  | nil => intro k p h; simp [findTask] at h
  | cons r rs ih =>
    intro k p h
    simp only [findTask] at h
    cases hr : findTask rs k with
    | some q =>
      rw [hr] at h
      cases h
      obtain ⟨hm, ht, hk⟩ := ih hr
      exact ⟨List.mem_cons_of_mem _ hm, ht, hk⟩
    | none =>
      rw [hr] at h
      by_cases hc : (taskLike r && r.Key == k) = true
      · rw [if_pos hc] at h
        cases h
        have hc' : taskLike r = true ∧ r.Key = k := by simpa using hc
        exact ⟨List.mem_cons_self _ _, hc'.1, hc'.2⟩
      · rw [if_neg hc] at h
        cases h

theorem findTask_eq_some {rows : List IssueRecord} {P : IssueRecord}
    (hnd : (rows.map IssueRecord.Key).Nodup) (hP : P ∈ rows)
    (hPt : taskLike P = true) : findTask rows P.Key = some P := by
  induction rows with
  | nil => cases hP
  | cons r rs ih =>
    rw [List.map_cons, List.nodup_cons] at hnd
    rcases List.mem_cons.mp hP with hEq | hmem
    · subst hEq
      have hnone : findTask rs P.Key = none := by
        cases h : findTask rs P.Key with
        | none => rfl
        | some q =>
          obtain ⟨hm, _, hk⟩ := findTask_sound h
          exact absurd (hk ▸ List.mem_map_of_mem IssueRecord.Key hm) hnd.1
      simp [findTask, hnone, hPt]
    · have := ih hnd.2 hmem
      simp [findTask, this]

theorem findTask_none {rows : List IssueRecord} {k : String}
    (h : ∀ P ∈ rows, ¬(taskLike P = true ∧ P.Key = k)) :
    findTask rows k = none := by
  cases hf : findTask rows k with
  | none => rfl
  | some q =>
    obtain ⟨hm, ht, hk⟩ := findTask_sound hf
    exact absurd ⟨ht, hk⟩ (h q hm)

theorem resolveRec_Key (rows : List IssueRecord) (r : IssueRecord) :
    (resolveRec rows r).Key = r.Key := by
  unfold resolveRec
  split
  · cases findTask rows r.Parent <;> rfl
  · rfl

theorem resolveRec_Summary (rows : List IssueRecord) (r : IssueRecord) :
    (resolveRec rows r).Summary = r.Summary := by
  unfold resolveRec
  split
  · cases findTask rows r.Parent <;> rfl
  · rfl

theorem resolveRec_Status (rows : List IssueRecord) (r : IssueRecord) :
    (resolveRec rows r).Status = r.Status := by
  unfold resolveRec
  split
  · cases findTask rows r.Parent <;> rfl
  · rfl

theorem resolveRec_IssueType (rows : List IssueRecord) (r : IssueRecord) :
    (resolveRec rows r).IssueType = r.IssueType := by
  unfold resolveRec
  split
  · cases findTask rows r.Parent <;> rfl
  · rfl

theorem resolveRec_Parent (rows : List IssueRecord) (r : IssueRecord) :
    (resolveRec rows r).Parent = r.Parent := by
  unfold resolveRec
  split
  · cases findTask rows r.Parent <;> rfl
  · rfl

theorem resolveRec_Created (rows : List IssueRecord) (r : IssueRecord) :
    (resolveRec rows r).Created = r.Created := by
  unfold resolveRec
  split
  · cases findTask rows r.Parent <;> rfl
  · rfl

theorem resolveRec_Oncelik (rows : List IssueRecord) (r : IssueRecord) :
    (resolveRec rows r).Oncelik = r.Oncelik := by
  unfold resolveRec
  split
  · cases findTask rows r.Parent <;> rfl
  · rfl

theorem resolveRec_not_subtask (rows : List IssueRecord) {r : IssueRecord}
    (h : ¬ r.IssueType = "Sub-task") : resolveRec rows r = r := by
  simp [resolveRec, h]

theorem resolveRec_of_taskLike (rows : List IssueRecord) {r : IssueRecord}
    (h : taskLike r = true) : resolveRec rows r = r := by
  apply resolveRec_not_subtask
  intro hEq
  simp [taskLike, hEq] at h

theorem taskLike_resolveRec (rows : List IssueRecord) (r : IssueRecord) :
    taskLike (resolveRec rows r) = taskLike r := by
  simp [taskLike, resolveRec_IssueType]

theorem findTask_map {f : IssueRecord → IssueRecord}
    (hK : ∀ r, (f r).Key = r.Key) (hT : ∀ r, (f r).IssueType = r.IssueType)
    (hfix : ∀ r, taskLike r = true → f r = r) :
    ∀ (rows : List IssueRecord) (k : String),
      findTask (rows.map f) k = findTask rows k := by
  intro rows
  induction rows with
  | nil => intro k; rfl
  | cons r rs ih =>
    intro k
    simp only [List.map_cons, findTask, ih k]
    cases findTask rs k with
    | some q => rfl
    | none =>
      have htl : taskLike (f r) = taskLike r := by simp [taskLike, hT r]
      rw [htl, hK r]
      by_cases ht : taskLike r = true
      · rw [hfix r ht]
      · have ht' : taskLike r = false := by
          revert ht; cases taskLike r <;> simp
        simp [ht']

theorem findTask_resolve (rows : List IssueRecord) (k : String) :
    findTask (resolve rows) k = findTask rows k :=
  findTask_map (resolveRec_Key rows) (resolveRec_IssueType rows)
    (fun _ h => resolveRec_of_taskLike rows h) rows k

theorem resolveRec_resolve (rows : List IssueRecord) (r : IssueRecord) :
    resolveRec (resolve rows) r = resolveRec rows r := by
  unfold resolveRec
  rw [findTask_resolve]

theorem resolveRec_idem (rows : List IssueRecord) (r : IssueRecord) :
    resolveRec rows (resolveRec rows r) = resolveRec rows r := by
  by_cases h : r.IssueType = "Sub-task"
  · cases hf : findTask rows r.Parent with
    | none => simp [resolveRec, h, hf]
    | some p => simp [resolveRec, h, hf]
  · simp [resolveRec, h]

/-- C7: hierarchy resolution is idempotent — resolving an already-resolved
record sequence is a no-op. -/
theorem resolve_idempotent (rows : List IssueRecord) :
    resolve (resolve rows) = resolve rows := by
  have hpt : ∀ a, resolveRec (resolve rows) (resolveRec rows a) = resolveRec rows a := by
    intro a
    rw [resolveRec_resolve]
    exact resolveRec_idem rows a
  calc resolve (resolve rows)
      = rows.map (fun a => resolveRec (resolve rows) (resolveRec rows a)) := by
        simp only [resolve, List.map_map]; rfl
    _ = rows.map (resolveRec rows) := by simp only [hpt]
    _ = resolve rows := rfl

theorem resolve_get (rows : List IssueRecord) (i : Nat)
    (hi : i < rows.length) (hi2 : i < (resolve rows).length) :
    (resolve rows).get ⟨i, hi2⟩ = resolveRec rows (rows.get ⟨i, hi⟩) := by
  simp [resolve]

/-- C9: resolution changes at most the "Epic Link" of "Sub-task" rows — the
output has the same length, every field other than "Epic Link" is preserved
at every position, and a row that is not a "Sub-task" is unchanged. -/
theorem resolve_frame (rows : List IssueRecord) (i : Nat)
    (hi : i < rows.length) (hi2 : i < (resolve rows).length) :
    (resolve rows).length = rows.length ∧
    ((resolve rows).get ⟨i, hi2⟩).Key = (rows.get ⟨i, hi⟩).Key ∧
    ((resolve rows).get ⟨i, hi2⟩).Summary = (rows.get ⟨i, hi⟩).Summary ∧
    ((resolve rows).get ⟨i, hi2⟩).Status = (rows.get ⟨i, hi⟩).Status ∧
    ((resolve rows).get ⟨i, hi2⟩).IssueType = (rows.get ⟨i, hi⟩).IssueType ∧
    ((resolve rows).get ⟨i, hi2⟩).Parent = (rows.get ⟨i, hi⟩).Parent ∧
    ((resolve rows).get ⟨i, hi2⟩).Created = (rows.get ⟨i, hi⟩).Created ∧
    ((resolve rows).get ⟨i, hi2⟩).Oncelik = (rows.get ⟨i, hi⟩).Oncelik ∧
    ((rows.get ⟨i, hi⟩).IssueType ≠ "Sub-task" →
      (resolve rows).get ⟨i, hi2⟩ = rows.get ⟨i, hi⟩) := by
  rw [resolve_get rows i hi hi2]
  refine ⟨by simp [resolve], resolveRec_Key _ _, resolveRec_Summary _ _,
    resolveRec_Status _ _, resolveRec_IssueType _ _, resolveRec_Parent _ _,
    resolveRec_Created _ _, resolveRec_Oncelik _ _, fun h => resolveRec_not_subtask _ h⟩

/-- Sample subtask row used in concrete witnesses: its parent "VM-2" is a
task present in the set, and it carries a tracker-supplied epic link. -/
def subRow : IssueRecord :=
  { Key := "VM-3", Summary := "s3", Status := "To Do", IssueType := "Sub-task",
    Parent := "VM-2", EpicLink := "VM-9", Created := 2, Oncelik := "High" }

/-- Sample task row with an empty epic link, the parent of `subRow`. -/
def taskRow : IssueRecord :=
  { Key := "VM-2", Summary := "s2", Status := "Done", IssueType := "Task",
    Parent := "", EpicLink := "", Created := 1, Oncelik := "High" }

/-- Sample task row carrying the epic link "VM-1". -/
def taskRowLinked : IssueRecord :=
  { Key := "VM-2", Summary := "s2", Status := "Done", IssueType := "Task",
    Parent := "", EpicLink := "VM-1", Created := 1, Oncelik := "High" }

/-- Sample subtask row whose parent key "VM-99" matches no record. -/
def orphanRow : IssueRecord :=
  { Key := "VM-4", Summary := "s4", Status := "To Do", IssueType := "Sub-task",
    Parent := "VM-99", EpicLink := "VM-9", Created := 3, Oncelik := "Low" }

theorem resolve_frame_witness :
    0 < [taskRow, subRow].length ∧ 0 < (resolve [taskRow, subRow]).length ∧
    ((resolve [taskRow, subRow]).get ⟨0, by decide⟩).Key
      = ([taskRow, subRow].get ⟨0, by decide⟩).Key :=
  ⟨by decide, by decide,
    (resolve_frame [taskRow, subRow] 0 (by decide) (by decide)).2.1⟩

/-- C1: a subtask whose parent key names a task-like record present in the
(key-unique) sequence ends up with that parent's epic link. -/
theorem resolve_propagates_parent_epic (rows : List IssueRecord)
    (hnd : (rows.map IssueRecord.Key).Nodup)
    (P : IssueRecord) (hP : P ∈ rows) (hPt : taskLike P = true)
    (i : Nat) (hi : i < rows.length) (hi2 : i < (resolve rows).length)
    (hS : (rows.get ⟨i, hi⟩).IssueType = "Sub-task")
    (hpar : (rows.get ⟨i, hi⟩).Parent = P.Key) :
    ((resolve rows).get ⟨i, hi2⟩).EpicLink = P.EpicLink := by
  rw [resolve_get rows i hi hi2]
  have hf : findTask rows (rows.get ⟨i, hi⟩).Parent = some P := by
    rw [hpar]; exact findTask_eq_some hnd hP hPt
  simp only [List.get_eq_getElem] at hS hf
  simp [resolveRec, hS, hf]

theorem resolve_propagates_parent_epic_witness :
    ((resolve [taskRowLinked, subRow]).get ⟨1, by decide⟩).EpicLink = "VM-1" :=
  resolve_propagates_parent_epic [taskRowLinked, subRow] (by decide)
    taskRowLinked (by decide) (by decide) 1 (by decide) (by decide)
    (by decide) (by decide)

/-- C10: the overwrite is unconditional on the parent's value — whenever the
parent lookup succeeds the subtask receives exactly the parent's epic link,
even when that link is empty and the subtask carried a non-empty one. -/
theorem resolve_overwrites_unconditionally (rows : List IssueRecord)
    (i : Nat) (hi : i < rows.length) (hi2 : i < (resolve rows).length)
    (P : IssueRecord)
    (hS : (rows.get ⟨i, hi⟩).IssueType = "Sub-task")
    (hf : findTask rows (rows.get ⟨i, hi⟩).Parent = some P) :
    ((resolve rows).get ⟨i, hi2⟩).EpicLink = P.EpicLink := by
  rw [resolve_get rows i hi hi2]
  simp only [List.get_eq_getElem] at hS hf
  simp [resolveRec, hS, hf]

theorem resolve_overwrites_unconditionally_witness :
    subRow.EpicLink = "VM-9" ∧ taskRow.EpicLink = "" ∧
    ((resolve [taskRow, subRow]).get ⟨1, by decide⟩).EpicLink = "" :=
  ⟨by decide, by decide,
    resolve_overwrites_unconditionally [taskRow, subRow] 1 (by decide)
      (by decide) taskRow (by decide) (by decide)⟩

/-- C3 counterexample: an orphan subtask that carried a tracker-supplied
non-empty epic link keeps it — after resolution its epic link is "VM-9",
not the empty string the claim demands. -/
theorem resolve_orphan_counterexample :
    orphanRow.IssueType = "Sub-task" ∧
    findTask [orphanRow] orphanRow.Parent = none ∧
    ((resolve [orphanRow]).get ⟨0, by decide⟩).EpicLink ≠ "" := by
  refine ⟨by decide, by decide, ?_⟩
  decide

/-- C3 (amended): a subtask whose parent key matches no task-like record in
the sequence is left entirely unchanged by resolution — in particular its
epic link keeps its normalized value, which is the empty string exactly when
the tracker supplied none. -/
theorem resolve_orphan_unchanged (rows : List IssueRecord) (i : Nat)
    (hi : i < rows.length) (hi2 : i < (resolve rows).length)
    (hS : (rows.get ⟨i, hi⟩).IssueType = "Sub-task")
    (horph : ∀ P ∈ rows, ¬(taskLike P = true ∧ P.Key = (rows.get ⟨i, hi⟩).Parent)) :
    (resolve rows).get ⟨i, hi2⟩ = rows.get ⟨i, hi⟩ := by
  rw [resolve_get rows i hi hi2]
  have hf : findTask rows (rows.get ⟨i, hi⟩).Parent = none := findTask_none horph
  simp only [List.get_eq_getElem] at hS hf
  simp [resolveRec, hS, hf]

theorem resolve_orphan_unchanged_witness :
    (resolve [orphanRow]).get ⟨0, by decide⟩ = orphanRow :=
  resolve_orphan_unchanged [orphanRow] 0 (by decide) (by decide)
    (by decide) (by decide)

/-!
Filter engine (lines 95-110 of app.py).

The sidebar state is a configuration: three optional hierarchy pins
(`selected_epic`, `selected_task`, `selected_subtask`; `None` when no option
list was available), three multiselect sets and an inclusive date range.
`filtered_df` translates the chain of successive dataframe filters literally;
`activePred` is a second definition written from the spec's words — the
conjunction of all active predicates — to be compared with it.  The code
filters `df.copy()`, so the input sequence is not mutated; in the pure
embedding this is inherent and the theorem exhibits the output as a fresh
subsequence of the unchanged input.
-/

/-- Sidebar filter state feeding lines 95-110. -/
structure FilterCfg where
  selectedEpic : Option String
  selectedTask : Option String
  selectedSubtask : Option String
  issueTypes : List String
  statusFilter : List String
  oncelikFilter : List String
  dateStart : Int
  dateEnd : Int
deriving DecidableEq, Repr

/-- Literal translation of the successive filters of lines 95-110: each pin,
when set, restricts the running dataframe, and the four sidebar predicates
are applied at the end as one conjunction. -/
def filtered_df (cfg : FilterCfg) (df : List IssueRecord) : List IssueRecord :=
  let s1 : List IssueRecord := match cfg.selectedEpic with
    | some e => df.filter (fun r => r.EpicLink == e)
    | none => df
  let s2 : List IssueRecord := match cfg.selectedTask with
    | some t => s1.filter (fun r => r.Key == t || r.Parent == t)
    | none => s1
  let s3 : List IssueRecord := match cfg.selectedSubtask with
    | some s => s2.filter (fun r => r.Key == s)
    | none => s2
  s3.filter (fun r =>
    cfg.issueTypes.contains r.IssueType &&
    cfg.statusFilter.contains r.Status &&
    cfg.oncelikFilter.contains r.Oncelik &&
    decide (cfg.dateStart ≤ r.Created) &&
    decide (r.Created ≤ cfg.dateEnd))

/-- Conjunction of all active predicates, written from the spec's filter
contract: type, status and priority membership, the inclusive date range,
and each hierarchy pin when one is active. -/
def activePred (cfg : FilterCfg) (r : IssueRecord) : Bool :=
  (match cfg.selectedEpic with
    | some e => r.EpicLink == e
    | none => true) &&
  (match cfg.selectedTask with
    | some t => r.Key == t || r.Parent == t
    | none => true) &&
  (match cfg.selectedSubtask with
    | some s => r.Key == s
    | none => true) &&
  cfg.issueTypes.contains r.IssueType &&
  cfg.statusFilter.contains r.Status &&
  cfg.oncelikFilter.contains r.Oncelik &&
  decide (cfg.dateStart ≤ r.Created) &&
  decide (r.Created ≤ cfg.dateEnd)

/-- C4: the filter output is exactly the subsequence of the input satisfying
the conjunction of all active predicates, and it is a sublist of the input —
original relative order preserved, input untouched. -/
theorem filtered_df_spec (cfg : FilterCfg) (df : List IssueRecord) :
    filtered_df cfg df = df.filter (activePred cfg) ∧
    List.Sublist (filtered_df cfg df) df := by
  have heq : filtered_df cfg df = df.filter (activePred cfg) := by
    obtain ⟨se, st, ss, it, sf, onc, d1, d2⟩ := cfg
    cases se <;> cases st <;> cases ss <;>
      · simp only [filtered_df, activePred, List.filter_filter]
        refine List.filter_congr ?_
        intro r _
        simp [activePred, Bool.and_assoc, Bool.and_comm, Bool.and_left_comm]
  exact ⟨heq, heq ▸ List.filter_sublist df⟩

/-!
Progress aggregation (lines 147-158 of app.py).

`epic_issues` keeps the rows with a non-empty "Epic Link" (line 147; a null
epic link is modelled as the empty string, so `notna` and `!= ""` collapse to
one test).  The groupby of lines 148-151 yields one group per distinct epic
link; per group, `total_issues` counts its rows and `done_issues` counts its
rows with status "Done".  Lines 153-154 (`to_numeric`/`fillna`) are the
identity on these integer counts.  Line 155-158 computes
`round(100 * done / total, 1)` when `total > 0`, else 0.  Python's `round`
(banker's rounding, ties to even) is modelled exactly on rationals by
`pyRound`; the float representation itself is not modelled.
-/

/-- Rows with a non-empty epic link (line 147). -/
def epic_issues (df : List IssueRecord) : List IssueRecord :=
  df.filter (fun r => r.EpicLink != "")

/-- The rows the groupby places in the group of epic key `k`. -/
def epicGroupRecords (df : List IssueRecord) (k : String) : List IssueRecord :=
  (epic_issues df).filter (fun r => r.EpicLink == k)

/-- The distinct grouping keys of the groupby of line 148. -/
def epicKeys (df : List IssueRecord) : List String :=
  ((epic_issues df).map IssueRecord.EpicLink).dedup

/-- One output row of `epic_summary` (lines 148-158). -/
structure EpicGroup where
  epicLink : String
  total_issues : Nat
  done_issues : Nat
  progress : ℚ
deriving DecidableEq, Repr

/-- Python's `round` to the nearest integer, ties to even, on exact
rationals. -/
def pyRound (x : ℚ) : ℤ :=
  if Int.fract x < 1/2 then ⌊x⌋
  else if 1/2 < Int.fract x then ⌊x⌋ + 1
  else if ⌊x⌋ % 2 = 0 then ⌊x⌋ else ⌊x⌋ + 1

/-- Python's `round(x, 1)`: round at one decimal place. -/
def round1 (x : ℚ) : ℚ := (pyRound (10 * x) : ℚ) / 10

/-- The "Progress (%)" cell of lines 155-158. -/
def progressOf (total done : Nat) : ℚ :=
  if 0 < total then round1 (100 * (done : ℚ) / (total : ℚ)) else 0

/-- The `epic_summary` row for grouping key `k` (lines 148-158). -/
def mkEpicGroup (df : List IssueRecord) (k : String) : EpicGroup :=
  let grp := epicGroupRecords df k
  let d := (grp.filter (fun r => r.Status == "Done")).length
  { epicLink := k, total_issues := grp.length, done_issues := d,
    progress := progressOf grp.length d }

/-- The whole `epic_summary` table of lines 147-158, one row per distinct
non-empty epic link of `df`. -/
def epic_summary (df : List IssueRecord) : List EpicGroup :=
  (epicKeys df).map (mkEpicGroup df)

/-- Line 147 reads `df` — the full resolved record set — not `filtered_df`:
the epic summary the app displays is this function of `df` alone, whatever
filter configuration is active in the sidebar. -/
def appEpicSummary (_cfg : FilterCfg) (df : List IssueRecord) : List EpicGroup :=
  epic_summary df

theorem pyRound_intCast (n : ℤ) : pyRound (n : ℚ) = n := by
  unfold pyRound
  rw [Int.fract_intCast, Int.floor_intCast]
  norm_num

theorem pyRound_floor_le (x : ℚ) : ⌊x⌋ ≤ pyRound x := by
  unfold pyRound
  split
  · exact le_refl _
  · split
    · omega
    · split
      · exact le_refl _
      · omega

theorem pyRound_nonneg {x : ℚ} (h : 0 ≤ x) : 0 ≤ pyRound x :=
  le_trans (Int.floor_nonneg.mpr h) (pyRound_floor_le x)

theorem pyRound_le_intCast {x : ℚ} {n : ℤ} (h : x ≤ (n : ℚ)) : pyRound x ≤ n := by
  have hfl : ⌊x⌋ ≤ n := le_trans (Int.floor_mono h) (le_of_eq (Int.floor_intCast n))
  unfold pyRound
  split
  · exact hfl
  next hge =>
    have hge' : (1:ℚ)/2 ≤ Int.fract x := not_lt.mp hge
    have hlt : ⌊x⌋ < n := by
      rcases lt_or_eq_of_le hfl with h' | h'
      · exact h'
      · exfalso
        have hxle : x ≤ (⌊x⌋ : ℚ) := by rw [h']; exact h
        have hfr : Int.fract x ≤ 0 := by
          unfold Int.fract
          linarith
        linarith
    split
    · omega
    · split
      · exact hfl
      · omega

theorem round1_nonneg {x : ℚ} (h : 0 ≤ x) : 0 ≤ round1 x := by
  unfold round1
  have h10 : (0:ℚ) ≤ 10 * x := by linarith
  have := pyRound_nonneg h10
  have hc : (0:ℚ) ≤ (pyRound (10 * x) : ℚ) := by exact_mod_cast this
  linarith

theorem round1_le_100 {x : ℚ} (h : x ≤ 100) : round1 x ≤ 100 := by
  unfold round1
  have h10 : 10 * x ≤ ((1000 : ℤ) : ℚ) := by push_cast; linarith
  have := pyRound_le_intCast h10
  have hc : (pyRound (10 * x) : ℚ) ≤ 1000 := by exact_mod_cast this
  linarith

theorem round1_zero : round1 0 = 0 := by
  have h : (10:ℚ) * 0 = ((0 : ℤ) : ℚ) := by norm_num
  rw [round1, h, pyRound_intCast]
  norm_num

theorem round1_100 : round1 100 = 100 := by
  have h : (10:ℚ) * 100 = ((1000 : ℤ) : ℚ) := by norm_num
  rw [round1, h, pyRound_intCast]
  norm_num

theorem mem_epicKeys_pos {df : List IssueRecord} {k : String}
    (hk : k ∈ epicKeys df) : 0 < (epicGroupRecords df k).length := by
  have hk' : k ∈ (epic_issues df).map IssueRecord.EpicLink := List.mem_dedup.mp hk
  obtain ⟨r, hr, hrk⟩ := List.mem_map.mp hk'
  have hmem : r ∈ epicGroupRecords df k :=
    List.mem_filter.mpr ⟨hr, by simp [hrk]⟩
  exact List.length_pos.mpr (List.ne_nil_of_mem hmem)

/-- C5: every epic-summary row's progress equals the rounded percentage when
its total is positive (else 0), lies between 0 and 100, is 0 when nothing is
done and 100 when everything is. -/
theorem epic_summary_progress (df : List IssueRecord) (g : EpicGroup)
    (hg : g ∈ epic_summary df) :
    g.progress = (if 0 < g.total_issues then
      round1 (100 * (g.done_issues : ℚ) / (g.total_issues : ℚ)) else 0) ∧
    0 ≤ g.progress ∧ g.progress ≤ 100 ∧
    (g.done_issues = 0 → g.progress = 0) ∧
    (g.done_issues = g.total_issues → g.progress = 100) := by
  obtain ⟨k, hk, rfl⟩ := List.mem_map.mp hg
  have ht_pos : 0 < (epicGroupRecords df k).length := mem_epicKeys_pos hk
  have hd_le : ((epicGroupRecords df k).filter (fun r => r.Status == "Done")).length
      ≤ (epicGroupRecords df k).length := List.length_filter_le _ _
  set t := (epicGroupRecords df k).length with hts
  set d := ((epicGroupRecords df k).filter (fun r => r.Status == "Done")).length with hds
  have hproj : (mkEpicGroup df k).progress = progressOf t d := rfl
  have htot : (mkEpicGroup df k).total_issues = t := rfl
  have hdone : (mkEpicGroup df k).done_issues = d := rfl
  have htq : (0:ℚ) < (t : ℚ) := by exact_mod_cast ht_pos
  have hq_nonneg : 0 ≤ 100 * (d : ℚ) / (t : ℚ) := by positivity
  have hq_le : 100 * (d : ℚ) / (t : ℚ) ≤ 100 := by
    rw [div_le_iff₀ htq]
    have : (d : ℚ) ≤ (t : ℚ) := by exact_mod_cast hd_le
    linarith
  refine ⟨by rw [hproj, htot, hdone]; simp [progressOf, ht_pos], ?_, ?_, ?_, ?_⟩
  · rw [hproj]; simp only [progressOf, if_pos ht_pos]
    exact round1_nonneg hq_nonneg
  · rw [hproj]; simp only [progressOf, if_pos ht_pos]
    exact round1_le_100 hq_le
  · intro h0
    rw [hdone] at h0
    rw [hproj, h0]
    simp only [progressOf, if_pos ht_pos]
    norm_num
    exact round1_zero
  · intro hdt
    rw [hdone, htot] at hdt
    rw [hproj, hdt]
    simp only [progressOf, if_pos ht_pos]
    rw [mul_div_assoc, div_self (ne_of_gt htq), mul_one]
    exact round1_100

theorem epic_summary_progress_witness :
    mkEpicGroup [taskRowLinked] "VM-1" ∈ epic_summary [taskRowLinked] ∧
    (mkEpicGroup [taskRowLinked] "VM-1").progress ≤ 100 := by
  have hmem : mkEpicGroup [taskRowLinked] "VM-1" ∈ epic_summary [taskRowLinked] := by
    have hk : epicKeys [taskRowLinked] = ["VM-1"] := by decide
    rw [epic_summary, hk]
    simp
  exact ⟨hmem, (epic_summary_progress [taskRowLinked] _ hmem).2.2.1⟩

theorem length_filter_beq_add (f : IssueRecord → String) (k : String)
    (l : List IssueRecord) :
    (l.filter (fun r => f r == k)).length
      + (l.filter (fun r => !(f r == k))).length = l.length :=
  (List.length_eq_length_filter_add (fun r => f r == k)).symm

theorem filter_beq_of_ne (f : IssueRecord → String) {k k' : String}
    (hne : k' ≠ k) (l : List IssueRecord) :
    ((l.filter (fun r => !(f r == k))).filter (fun r => f r == k'))
      = l.filter (fun r => f r == k') := by
  rw [List.filter_filter]
  refine List.filter_congr ?_
  intro r _
  by_cases hb : f r = k'
  · simp [hb, hne]
  · simp [hb]

theorem sum_counts (f : IssueRecord → String) :
    ∀ (keys : List String), keys.Nodup →
      ∀ (l : List IssueRecord), (∀ r ∈ l, f r ∈ keys) →
      ((keys.map (fun k => (l.filter (fun r => f r == k)).length)).sum = l.length) := by
  intro keys
  induction keys with
  | nil =>
    intro _ l hcov
    cases l with
    | nil => rfl
    | cons a t => exact absurd (hcov a (List.mem_cons_self a t)) (by simp)
  | cons k ks ih =>
    intro hnd l hcov
    rw [List.nodup_cons] at hnd
    rw [List.map_cons, List.sum_cons]
    have hrest : (ks.map (fun k' => (l.filter (fun r => f r == k')).length)).sum
        = (l.filter (fun r => !(f r == k))).length := by
      have hcov' : ∀ r ∈ l.filter (fun r => !(f r == k)), f r ∈ ks := by
        intro r hr
        obtain ⟨hrl, hrb⟩ := List.mem_filter.mp hr
        have hfk : f r ≠ k := by simpa using hrb
        rcases List.mem_cons.mp (hcov r hrl) with h | h
        · exact absurd h hfk
        · exact h
      have := ih hnd.2 (l.filter (fun r => !(f r == k))) hcov'
      rw [← this]
      congr 1
      refine List.map_congr_left ?_
      intro k' hk'
      have hne : k' ≠ k := fun hEq => hnd.1 (hEq ▸ hk')
      rw [filter_beq_of_ne f hne]
    rw [hrest, length_filter_beq_add]

/-- C6: rows with an empty epic link land in no aggregation group, and the
group totals of `epic_summary` sum to the number of rows with a non-empty
epic link. -/
theorem epic_summary_conservation (df : List IssueRecord) :
    (∀ k : String, ∀ r : IssueRecord, r.EpicLink = "" → r ∉ epicGroupRecords df k) ∧
    ((epic_summary df).map EpicGroup.total_issues).sum
      = (df.filter (fun r => r.EpicLink != "")).length := by
  constructor
  · intro k r hempty hmem
    have hr := (List.mem_filter.mp hmem).1
    have := (List.mem_filter.mp hr).2
    simp [hempty] at this
  · have hmm : (epic_summary df).map EpicGroup.total_issues
        = (epicKeys df).map
            (fun k => ((epic_issues df).filter (fun r => r.EpicLink == k)).length) := by
      rw [epic_summary, List.map_map]
      rfl
    rw [hmm]
    have hnd : (epicKeys df).Nodup := List.nodup_dedup _
    have hcov : ∀ r ∈ epic_issues df, r.EpicLink ∈ epicKeys df := by
      intro r hr
      exact List.mem_dedup.mpr (List.mem_map_of_mem IssueRecord.EpicLink hr)
    exact sum_counts IssueRecord.EpicLink (epicKeys df) hnd (epic_issues df) hcov

theorem epic_summary_conservation_witness :
    taskRow ∉ epicGroupRecords [taskRowLinked] "VM-1" ∧
    ((epic_summary [taskRowLinked]).map EpicGroup.total_issues).sum
      = ([taskRowLinked].filter (fun r => r.EpicLink != "")).length :=
  ⟨(epic_summary_conservation [taskRowLinked]).1 "VM-1" taskRow rfl,
    (epic_summary_conservation [taskRowLinked]).2⟩

/-- Sample row with a non-empty epic link whose status fails the status
filter below. -/
def rowNoMatch : IssueRecord :=
  { Key := "VM-2", Summary := "s2", Status := "To Do", IssueType := "Task",
    Parent := "", EpicLink := "VM-1", Created := 0, Oncelik := "High" }

/-- Filter configuration keeping only "Done" rows. -/
def cfgDoneOnly : FilterCfg :=
  { selectedEpic := none, selectedTask := none, selectedSubtask := none,
    issueTypes := ["Task"], statusFilter := ["Done"], oncelikFilter := ["High"],
    dateStart := 0, dateEnd := 0 }

/-- Filter configuration keeping "To Do" rows. -/
def cfgToDo : FilterCfg :=
  { selectedEpic := none, selectedTask := none, selectedSubtask := none,
    issueTypes := ["Task"], statusFilter := ["To Do"], oncelikFilter := ["High"],
    dateStart := 0, dateEnd := 0 }

/-- C2 counterexample: with the "Done"-only filter active, the filtered
sequence is empty, yet the epic summary the app computes (from `df`, line
147) still counts the filtered-out row — so the aggregation is not computed
over the filtered sequence. -/
theorem epic_summary_ignores_filters_counterexample :
    filtered_df cfgDoneOnly [rowNoMatch] = [] ∧
    (appEpicSummary cfgDoneOnly [rowNoMatch]).map EpicGroup.total_issues = [1] ∧
    appEpicSummary cfgDoneOnly [rowNoMatch]
      ≠ epic_summary (filtered_df cfgDoneOnly [rowNoMatch]) := by
  refine ⟨by decide, by decide, ?_⟩
  intro h
  have : ((appEpicSummary cfgDoneOnly [rowNoMatch]).map EpicGroup.total_issues)
      = ((epic_summary (filtered_df cfgDoneOnly [rowNoMatch])).map EpicGroup.total_issues) := by
    rw [h]
  rw [show filtered_df cfgDoneOnly [rowNoMatch] = [] from by decide] at this
  have h1 : (appEpicSummary cfgDoneOnly [rowNoMatch]).map EpicGroup.total_issues = [1] := by
    decide
  rw [h1] at this
  cases this

/-- C2 (amended): the epic progress aggregation is computed over the full
resolved sequence `df`, not the filtered one — its output is independent of
the active filter configuration, and each group's total counts the rows of
`df` carrying that (non-empty) epic link. -/
theorem appEpicSummary_ignores_filters (cfg cfg' : FilterCfg)
    (df : List IssueRecord) (g : EpicGroup)
    (hg : g ∈ appEpicSummary cfg df) :
    appEpicSummary cfg df = appEpicSummary cfg' df ∧
    g.epicLink ≠ "" ∧
    g.total_issues = (df.filter (fun r => r.EpicLink == g.epicLink)).length := by
  obtain ⟨k, hk, rfl⟩ := List.mem_map.mp hg
  have hk' : k ∈ (epic_issues df).map IssueRecord.EpicLink := List.mem_dedup.mp hk
  obtain ⟨r0, hr0, hrk⟩ := List.mem_map.mp hk'
  have hkne : k ≠ "" := by
    have h2 := (List.mem_filter.mp hr0).2
    rw [← hrk]
    simpa using h2
  refine ⟨rfl, hkne, ?_⟩
  show (epicGroupRecords df k).length = _
  have hgrp : epicGroupRecords df k = df.filter (fun r => r.EpicLink == k) := by
    unfold epicGroupRecords epic_issues
    rw [List.filter_filter]
    refine List.filter_congr ?_
    intro r _
    by_cases hb : r.EpicLink = k
    · simp [hb, hkne]
    · simp [hb]
  rw [hgrp]
  rfl

theorem appEpicSummary_ignores_filters_witness :
    appEpicSummary cfgDoneOnly [rowNoMatch] = appEpicSummary cfgToDo [rowNoMatch] ∧
    (mkEpicGroup [rowNoMatch] "VM-1").epicLink ≠ "" ∧
    (mkEpicGroup [rowNoMatch] "VM-1").total_issues
      = ([rowNoMatch].filter
          (fun r => r.EpicLink == (mkEpicGroup [rowNoMatch] "VM-1").epicLink)).length := by
  have hmem : mkEpicGroup [rowNoMatch] "VM-1" ∈ appEpicSummary cfgDoneOnly [rowNoMatch] := by
    show mkEpicGroup [rowNoMatch] "VM-1" ∈ epic_summary [rowNoMatch]
    have hk : epicKeys [rowNoMatch] = ["VM-1"] := by decide
    rw [epic_summary, hk]
    simp
  exact appEpicSummary_ignores_filters cfgDoneOnly cfgToDo [rowNoMatch] _ hmem

/-!
Fetch and presentation (lines 24-25, 31-35, 67-70 of app.py).

`fetch_issues` returns `response.json()` on HTTP 200 and the empty dict `{}`
otherwise (line 25); line 35 then takes `data.get("issues", [])`, so a
failure and a successful but empty search both yield the empty issue list.
Lines 67-70 show the single warning "Veri çekilemedi." and stop whenever the
resulting dataframe is empty.  A raw issue is modelled by the fields the code
reads; its `created` date is an integer day as for `IssueRecord`.
-/

/-- Raw Jira issue, holding exactly what lines 39-48 read from the JSON. -/
structure RawIssue where
  key : String
  summary : String
  statusName : String
  issuetypeName : String
  parentKey : Option String
  customfield_10011 : Option String
  created : Int
  customfield_10043 : Option String
deriving DecidableEq, Repr

/-- Row-building of lines 39-48: absent parent becomes "", absent epic link
becomes "", absent priority becomes the sentinel "Bilinmiyor". -/
def normalizeIssue (i : RawIssue) : IssueRecord :=
  { Key := i.key, Summary := i.summary, Status := i.statusName,
    IssueType := i.issuetypeName, Parent := i.parentKey.getD "",
    EpicLink := i.customfield_10011.getD "", Created := i.created,
    Oncelik := i.customfield_10043.getD "Bilinmiyor" }

/-- Lines 24-25 composed with line 35: a 200 response exposes its "issues"
list; any other status code yields `{}`, whose `.get("issues", [])` is the
empty list. -/
def fetch_issues (statusCode : Nat) (bodyIssues : List RawIssue) : List RawIssue :=
  if statusCode == 200 then bodyIssues else []

/-- Observable outcome of one rendering pass: either the "Veri çekilemedi."
warning followed by `st.stop()` (lines 68-70), or the dashboard over the
row set. -/
inductive Presentation where
  | noData : Presentation
  | dashboard : List IssueRecord → Presentation
deriving DecidableEq, Repr

/-- Lines 67-70: an empty dataframe warns and stops; otherwise render. -/
def present (rows : List IssueRecord) : Presentation :=
  if rows.isEmpty then Presentation.noData else Presentation.dashboard rows

/-- The fetch → normalize → empty-check prefix of the pipeline. -/
def pipeline (statusCode : Nat) (bodyIssues : List RawIssue) : Presentation :=
  present ((fetch_issues statusCode bodyIssues).map normalizeIssue)

/-- Sample raw issue for the fetch-failure scenario. -/
def rawTask : RawIssue :=
  { key := "VM-1", summary := "s", statusName := "Done",
    issuetypeName := "Task", parentKey := none,
    customfield_10011 := some "VM-0", created := 0,
    customfield_10043 := none }

/-- C8 counterexample: a failed fetch (HTTP 500, non-empty body) and a
successful fetch returning zero records produce the identical presentation —
the same "Veri çekilemedi." outcome — so the two cases are not
distinguished. -/
theorem pipeline_counterexample :
    pipeline 500 [rawTask] = Presentation.noData ∧
    pipeline 200 [] = Presentation.noData ∧
    pipeline 500 [rawTask] = pipeline 200 [] :=
  ⟨rfl, rfl, rfl⟩

/-- C8 (amended): a fetch failure and a successful fetch with zero records
lead to the same reported outcome: both collapse to the single empty-data
warning, with no distinction in presentation. -/
theorem pipeline_collapses_failure_and_empty (statusCode : Nat)
    (bodyIssues : List RawIssue) (hfail : statusCode ≠ 200) :
    pipeline statusCode bodyIssues = Presentation.noData ∧
    pipeline statusCode bodyIssues = pipeline 200 [] := by
  have hbe : (statusCode == 200) = false := by simpa using hfail
  constructor
  · simp [pipeline, fetch_issues, hbe, present]
  · simp [pipeline, fetch_issues, hbe, present]

theorem pipeline_collapses_failure_and_empty_witness :
    pipeline 500 [rawTask] = Presentation.noData ∧
    pipeline 500 [rawTask] = pipeline 200 [] :=
  pipeline_collapses_failure_and_empty 500 [rawTask] (by decide)
